import Mathlib

/-
  Shallow embedding of the Layout21 track-based layout model
  (src/layout21/src/lib.rs) and proofs about its operations.

  Machine integers are modelled as Nat (usize) and Int (isize); fallible
  operations return Except LayoutError; panicking paths are modelled as
  errors and are marked as such in comments.
-/

set_option maxHeartbeats 2000000
set_option maxRecDepth 100000

namespace Layout21

/-- Layout error enumeration, mirroring enum LayoutError of the source. -/
inductive LayoutError where
  | Message (s : String)
  | Export
  | Tbd
deriving DecidableEq, Repr

/-- Constructor helper mirroring LayoutError::msg. -/
def LayoutError.msg (s : String) : LayoutError := .Message s

/-- Distance units enumeration, mirroring enum Unit of the source. -/
inductive Unit where
  | Micro
  | Nano
deriving DecidableEq, Repr

/-- Direction enumeration, mirroring enum Dir of the source. -/
inductive Dir where
  | Horiz
  | Vert
deriving DecidableEq, Repr

/-- Direction flip, mirroring Dir::other. -/
def Dir.other : Dir → Dir
  | .Horiz => .Vert
  | .Vert => .Horiz

/-- Track type enumeration, mirroring enum TrackType of the source. -/
inductive TrackType where
  | Gap
  | Signal
  | Rail
deriving DecidableEq, Repr

/-- Track entry, mirroring struct TrackEntry (width: usize, ttype). -/
structure TrackEntry where
  width : Nat
  ttype : TrackType
deriving DecidableEq, Repr

/-- Helper mirroring TrackEntry::gap. -/
def TrackEntry.gap (width : Nat) : TrackEntry := ⟨width, .Gap⟩

/-- Helper mirroring TrackEntry::sig. -/
def TrackEntry.sig (width : Nat) : TrackEntry := ⟨width, .Signal⟩

/-- Repeating entry pattern, mirroring struct Pattern (entries, nrep). -/
structure Pattern where
  entries : List TrackEntry
  nrep : Nat
deriving DecidableEq, Repr

/-- Track spec, mirroring enum TrackSpec (Entry or Pat). -/
inductive TrackSpec where
  | Entry (e : TrackEntry)
  | Pat (p : Pattern)
deriving DecidableEq, Repr

/-- Helper mirroring TrackSpec::gap. -/
def TrackSpec.gap (width : Nat) : TrackSpec := .Entry ⟨width, .Gap⟩

/-- Helper mirroring TrackSpec::sig. -/
def TrackSpec.sig (width : Nat) : TrackSpec := .Entry ⟨width, .Signal⟩

/-- Helper mirroring TrackSpec::rail. -/
def TrackSpec.rail (width : Nat) : TrackSpec := .Entry ⟨width, .Rail⟩

/-- Helper mirroring TrackSpec::pat. -/
def TrackSpec.pat (e : List TrackEntry) (nrep : Nat) : TrackSpec := .Pat ⟨e, nrep⟩

/-- Point in two-dimensional layout space, mirroring struct Point (isize coords). -/
structure Point where
  x : Int
  y : Int
deriving DecidableEq, Repr

/-- Constructor mirroring Point::new. -/
def Point.new (x y : Int) : Point := ⟨x, y⟩

/-- Offset point in direction dir, mirroring Point::offset. -/
def Point.offset (val : Int) (dir : Dir) : Point :=
  match dir with
  | .Horiz => ⟨val, 0⟩
  | .Vert => ⟨0, val⟩

/-- Shifted point, mirroring Point::shift. -/
def Point.shift (self p : Point) : Point := ⟨p.x + self.x, p.y + self.y⟩

/-- Scaled point, mirroring Point::scale. -/
def Point.scale (self : Point) (x y : Int) : Point := ⟨x * self.x, y * self.y⟩

/-- Coordinate for a direction, mirroring Point::coord. -/
def Point.coord (self : Point) (dir : Dir) : Int :=
  match dir with
  | .Horiz => self.x
  | .Vert => self.y

namespace raw

/-- Layer specification pair, mirroring raw::LayerSpec (two i16 numbers). -/
structure LayerSpec where
  n1 : Int
  n2 : Int
deriving DecidableEq, Repr

/-- Per-layer datatype map, mirroring raw::DataTypeMap.
    The HashMap of other datatypes is modelled as an association list. -/
structure DataTypeMap where
  layernum : Int
  drawing : Option Int
  text : Option Int
  other : List (String × Int)
deriving DecidableEq, Repr

end raw

/-- Metal layer of a Stack, mirroring struct Layer. -/
structure Layer where
  index : Nat
  name : String
  dir : Dir
  cutsize : Nat
  entries : List TrackSpec
  offset : Int
  stream_layer : Option raw.LayerSpec
  raw : Option raw.DataTypeMap
deriving DecidableEq, Repr

/-- Helper for Layer::flat_entries: literal entries pass through, a Pattern
    contributes its entry list nrep times. -/
def flatEntriesAux : List TrackSpec → List TrackEntry
  | [] => []
  | .Entry ee :: rest => ee :: flatEntriesAux rest
  | .Pat p :: rest => (List.replicate p.nrep p.entries).flatten ++ flatEntriesAux rest

/-- Flattening of a Layer's entries, mirroring Layer::flat_entries. -/
def Layer.flat_entries (l : Layer) : List TrackEntry :=
  flatEntriesAux l.entries

/-- Sum of flattened entry widths, mirroring Layer::pitch. -/
def Layer.pitch (l : Layer) : Nat :=
  (l.flat_entries.map TrackEntry.width).sum

/-- Count of signal entries per period, mirroring Layer::num_signal_tracks. -/
def Layer.num_signal_tracks (l : Layer) : Nat :=
  (l.flat_entries.filter fun e =>
    match e.ttype with
    | .Signal => true
    | _ => false).length

/-- Loop of Layer::signal_track_center: walk the flattened entries keeping a
    cursor; at the idx_mod-th signal entry return its center. The source
    panics when the entry list is exhausted or the index is overshot; those
    paths are modelled as none. -/
def signalCenterGo (idx_mod : Nat) : List TrackEntry → Int → Nat → Option Int
  | [], _, _ => none
  | e :: rest, cursor, index =>
    match e.ttype with
    | .Rail => signalCenterGo idx_mod rest (cursor + e.width) index
    | .Gap => signalCenterGo idx_mod rest (cursor + e.width) index
    | .Signal =>
      if index > idx_mod then none
      else if index = idx_mod then some (cursor + (e.width : Int) / 2)
      else signalCenterGo idx_mod rest (cursor + e.width) (index + 1)

/-- Center coordinate of the idx-th signal track, mirroring
    Layer::signal_track_center. A zero signal-track count makes the source
    divide by zero (a panic), modelled as none. -/
def Layer.signal_track_center (l : Layer) (idx : Nat) : Option Int :=
  if l.num_signal_tracks = 0 then none
  else
    let idx_mod := idx % l.num_signal_tracks
    let cursor : Int := l.offset + ((l.pitch * idx / l.num_signal_tracks : Nat) : Int)
    signalCenterGo idx_mod l.flat_entries cursor 0

/-- Wire segment on a track, mirroring struct TrackSegment. -/
structure TrackSegment where
  net : Option String
  start : Nat
  stop : Nat
deriving DecidableEq, Repr

/-- Routing track, mirroring struct Track. The source holds a reference to
    its parent Layer; the embedding stores the Layer by value. -/
structure Track where
  layer : Layer
  ttype : TrackType
  index : Nat
  dir : Dir
  start : Int
  width : Nat
  segments : List TrackSegment
deriving DecidableEq, Repr

/-- One period of tracks, mirroring struct TrackPeriod. -/
structure TrackPeriod where
  signals : List Track
  rails : List Track
deriving DecidableEq, Repr

/-- One iteration of the Layer::to_track_period loop: a Gap advances the
    cursor, a Rail or Signal entry additionally appends a track with a single
    segment spanning 0..stop (rails with the placeholder power net, signals
    unassigned). -/
def ttpStep (l : Layer) (stop : Nat) (acc : Int × TrackPeriod) (e : TrackEntry) :
    Int × TrackPeriod :=
  let cursor := acc.1
  let period := acc.2
  match e.ttype with
  | .Gap => (cursor + (e.width : Int), period)
  | .Rail =>
    (cursor + (e.width : Int),
     { period with
        rails := period.rails ++
          [{ layer := l, ttype := e.ttype, index := period.rails.length,
             dir := l.dir, start := cursor, width := e.width,
             segments := [⟨some "POWER_OR_GROUND_HERE_BRO", 0, stop⟩] }] })
  | .Signal =>
    (cursor + (e.width : Int),
     { period with
        signals := period.signals ++
          [{ layer := l, ttype := e.ttype, index := period.signals.length,
             dir := l.dir, start := cursor, width := e.width,
             segments := [⟨none, 0, stop⟩] }] })

/-- Track derivation for one period, mirroring Layer::to_track_period:
    walk the flattened entries with a cursor starting at offset. -/
def Layer.to_track_period (l : Layer) (stop : Nat) : TrackPeriod :=
  (l.flat_entries.foldl (ttpStep l stop) (l.offset, ⟨[], []⟩)).2

/-- Track list derivation, mirroring Layer::tracks: like to_track_period but
    with a single shared index and initially empty segment lists. -/
def Layer.tracks (l : Layer) : List Track :=
  (l.flat_entries.foldl
    (fun (acc : Int × Nat × List Track) e =>
      let cursor := acc.1
      let index := acc.2.1
      let ts := acc.2.2
      match e.ttype with
      | .Gap => (cursor + (e.width : Int), index, ts)
      | .Rail =>
        (cursor + (e.width : Int), index + 1,
         ts ++ [{ layer := l, ttype := e.ttype, index := index, dir := l.dir,
                  start := cursor, width := e.width, segments := [] }])
      | .Signal =>
        (cursor + (e.width : Int), index + 1,
         ts ++ [{ layer := l, ttype := e.ttype, index := index, dir := l.dir,
                  start := cursor, width := e.width, segments := [] }]))
    (l.offset, 0, [])).2.2

/-- Segment lookup, mirroring Track::segment_at: scan the segments in order;
    return none as soon as a segment starts past dist; return the first
    segment whose inclusive start..stop range contains dist. -/
def segment_at : List TrackSegment → Int → Option TrackSegment
  | [], _ => none
  | seg :: rest, dist =>
    if (seg.start : Int) > dist then none
    else if (seg.start : Int) ≤ dist ∧ dist ≤ (seg.stop : Int) then some seg
    else segment_at rest dist

/-- Net assignment through Track::segment_at: the source takes a mutable
    reference to the found segment and sets its net; this embedding performs
    the same scan and returns the updated segment list (none when the source
    would find no segment). -/
def assign_net_at : List TrackSegment → Int → String → Option (List TrackSegment)
  | [], _, _ => none
  | seg :: rest, dist, net =>
    if (seg.start : Int) > dist then none
    else if (seg.start : Int) ≤ dist ∧ dist ≤ (seg.stop : Int) then
      some ({ seg with net := some net } :: rest)
    else (assign_net_at rest dist net).map (seg :: ·)

/-- Loop of Track::cut over the segment vector. Returns the in-place mutated
    segments together with the collected to_be_removed indices and the last
    to_be_inserted entry, exactly as the source loop leaves them. Indices are
    relative to the list passed in. The second branch mirrors the source's
    "uninvolved, carry on" continue whose condition coincides with the break
    condition (dead code in the source, kept for fidelity). -/
def cutScan (start stop : Nat) :
    List TrackSegment →
    Except LayoutError (List TrackSegment × List Nat × Option (Nat × TrackSegment))
  | [] => .ok ([], [], none)
  | seg :: rest =>
    if seg.start > stop then
      .ok (seg :: rest, [], none)
    else if stop < seg.start then
      match cutScan start stop rest with
      | .error e => .error e
      | .ok (rest', rem, ins) =>
        .ok (seg :: rest', rem.map (· + 1), ins.map fun p => (p.1 + 1, p.2))
    else if start ≤ seg.start ∧ stop ≥ seg.stop then
      match cutScan start stop rest with
      | .error e => .error e
      | .ok (rest', rem, ins) =>
        .ok (seg :: rest', 0 :: rem.map (· + 1), ins.map fun p => (p.1 + 1, p.2))
    else if start > seg.start ∧ stop ≥ seg.stop then
      match cutScan start stop rest with
      | .error e => .error e
      | .ok (rest', rem, ins) =>
        .ok ({ seg with stop := start } :: rest', rem.map (· + 1),
             ins.map fun p => (p.1 + 1, p.2))
    else if start ≤ seg.start ∧ stop < seg.stop then
      match cutScan start stop rest with
      | .error e => .error e
      | .ok (rest', rem, ins) =>
        .ok ({ seg with start := stop } :: rest', rem.map (· + 1),
             ins.map fun p => (p.1 + 1, p.2))
    else if start > seg.start ∧ stop < seg.stop then
      match cutScan start stop rest with
      | .error e => .error e
      | .ok (rest', rem, ins) =>
        .ok ({ seg with start := stop } :: rest', rem.map (· + 1),
             match ins with
             | some p => some (p.1 + 1, p.2)
             | none => some (0, { seg with stop := start }))
    else
      .error (.msg "Internal Error: Track::cut")

/-- Element insertion at an index, mirroring Vec::insert. -/
def listInsertAt : Nat → TrackSegment → List TrackSegment → List TrackSegment
  | 0, a, l => a :: l
  | _ + 1, a, [] => [a]
  | n + 1, a, x :: l => x :: listInsertAt n a l

/-- Removal of the listed indices in reverse (descending) order, mirroring
    the removal loop at the end of Track::cut. -/
def eraseIdxs (l : List TrackSegment) (idxs : List Nat) : List TrackSegment :=
  idxs.foldr (fun i acc => acc.eraseIdx i) l

/-- Post-processing of Track::cut: when a segment is to be inserted, insert
    it (the removal list is ignored in that case, exactly as in the source);
    otherwise remove the collected indices in reverse order. -/
def cutAssemble :
    List TrackSegment × List Nat × Option (Nat × TrackSegment) → List TrackSegment
  | (segs, _, some (idx, seg)) => listInsertAt idx seg segs
  | (segs, rem, none) => eraseIdxs segs rem

/-- Segment-level body of Track::cut. -/
def cutSegs (segments : List TrackSegment) (start stop : Nat) :
    Except LayoutError (List TrackSegment) :=
  if segments.length = 0 ∨ stop ≤ start then
    .error (.msg "Error Cutting Track")
  else
    match cutScan start stop segments with
    | .error e => .error e
    | .ok out => .ok (cutAssemble out)

/-- Cut of a track from start to stop, mirroring Track::cut. -/
def Track.cut (t : Track) (start stop : Nat) : Except LayoutError Track :=
  (cutSegs t.segments start stop).map fun s => { t with segments := s }

/-- Update of the last element's stop field, as done by Track::stop. -/
def setLastStop : List TrackSegment → Nat → List TrackSegment
  | [], _ => []
  | [s], x => [{ s with stop := x }]
  | s :: r :: rest, x => s :: setLastStop (r :: rest) x

/-- Segment-level body of Track::stop: fails on an empty segment list, else
    sets the final segment's stop. -/
def stopSegs (segments : List TrackSegment) (stop : Nat) :
    Except LayoutError (List TrackSegment) :=
  if segments.length = 0 then .error (.msg "Error Stopping Track")
  else .ok (setLastStop segments stop)

/-- Stop of a track, mirroring Track::stop. -/
def Track.stop (t : Track) (stop : Nat) : Except LayoutError Track :=
  (stopSegs t.segments stop).map fun s => { t with segments := s }

/-- Cut across a whole period, mirroring TrackPeriod::cut (rails first,
    then signals, propagating the first error). -/
def TrackPeriod.cut (p : TrackPeriod) (start stop : Nat) :
    Except LayoutError TrackPeriod := do
  let rails ← p.rails.mapM fun t => t.cut start stop
  let signals ← p.signals.mapM fun t => t.cut start stop
  pure { rails := rails, signals := signals }

/-- Check that a coordinate vector never increases between consecutive
    entries, as the x-loop of Outline::new does. -/
def nonIncreasing : List Nat → Bool
  | [] => true
  | [_] => true
  | a :: b :: rest => b ≤ a && nonIncreasing (b :: rest)

/-- Check that a coordinate vector never decreases between consecutive
    entries, as the y-loop of Outline::new does. -/
def nonDecreasing : List Nat → Bool
  | [] => true
  | [_] => true
  | a :: b :: rest => a ≤ b && nonDecreasing (b :: rest)

/-- Tetris-shaped block outline, mirroring struct Outline. -/
structure Outline where
  x : List Nat
  y : List Nat
deriving DecidableEq, Repr

/-- Validated constructor, mirroring Outline::new: length mismatch, empty
    vectors, an x increase or a y decrease are rejected with LayoutError::Tbd. -/
def Outline.new (x y : List Nat) : Except LayoutError Outline :=
  if x.length ≠ y.length then .error .Tbd
  else if x.length < 1 then .error .Tbd
  else if !nonIncreasing x then .error .Tbd
  else if !nonDecreasing y then .error .Tbd
  else .ok ⟨x, y⟩

/-- Rectangle constructor, mirroring Outline::rect. -/
def Outline.rect (x y : Nat) : Except LayoutError Outline := Outline.new [x] [y]

/-- Maximum x coordinate, mirroring Outline::xmax (x[0]; a valid outline is
    never empty, so the default is unreachable for constructed outlines). -/
def Outline.xmax (o : Outline) : Nat := o.x.headD 0

/-- Maximum y coordinate, mirroring Outline::ymax (y[len-1]). -/
def Outline.ymax (o : Outline) : Nat := (o.y.getLast?).getD 0

/-- Maximum coordinate in a direction, mirroring Outline::max. -/
def Outline.max (o : Outline) (dir : Dir) : Nat :=
  match dir with
  | .Horiz => o.xmax
  | .Vert => o.ymax

/-- Loop of Outline::points: for each (x[i], y[i]) pair push (x[i], previous y)
    then (x[i], y[i]); after the loop push the final implied point (0, y[-1]).
    The threaded value is the previous y (initially 0). -/
def pointsAux : Int → List (Nat × Nat) → List Point
  | yp, [] => [⟨0, yp⟩]
  | yp, (xi, yi) :: rest => ⟨xi, yp⟩ :: ⟨xi, yi⟩ :: pointsAux yi rest

/-- Polygon vertices of an outline, mirroring Outline::points. The source
    indexes x[i] and y[i] in lockstep; the zip coincides with it whenever the
    two vectors have equal length (guaranteed by Outline::new). -/
def Outline.points (o : Outline) : List Point :=
  ⟨0, 0⟩ :: pointsAux 0 (o.x.zip o.y)

/-- Via layer, mirroring struct ViaLayer. -/
structure ViaLayer where
  index : Nat
  name : String
  between : Nat × Nat
  size : Point
  stream_layer : Option raw.LayerSpec
deriving DecidableEq, Repr

/-- Layer stack, mirroring struct Stack. -/
structure Stack where
  units : Unit
  xpitch : Nat
  ypitch : Nat
  boundary_layer : Option raw.DataTypeMap
  layers : List Layer
  vias : List ViaLayer
deriving DecidableEq, Repr

/-- Relative z-axis reference, mirroring enum RelZ. -/
inductive RelZ where
  | Above
  | Below
deriving DecidableEq, Repr

/-- Track intersection address, mirroring struct TrackIntersection. The
    source field named at is spelled at_ because at is a Lean keyword. -/
structure TrackIntersection where
  layer : Nat
  track : Nat
  at_ : Nat
  relz : RelZ
deriving DecidableEq, Repr

/-- Net assignment, mirroring struct Assign (field at spelled at_). -/
structure Assign where
  net : String
  at_ : TrackIntersection
deriving DecidableEq, Repr

/-- Cell reference, mirroring enum CellRef. SlotMap keys are modelled as
    positions in the owning Library's list. -/
inductive CellRef where
  | Cell (k : Nat)
  | Abstract (k : Nat)
  | Name (n : String)
deriving DecidableEq, Repr

/-- Cell instance, mirroring struct Instance. The f64 rotation angle is
    carried opaquely; no conversion code consumes it. -/
structure Instance where
  inst_name : String
  cell_name : String
  cell : CellRef
  p0 : Point
  reflect : Bool
  angle : Option Float

/-- Layout cell, mirroring struct Cell. -/
structure Cell where
  name : String
  top_layer : Nat
  outline : Outline
  instances : List Instance
  assignments : List Assign
  cuts : List TrackIntersection

namespace abstrakt

/-- Outline-edge side, mirroring abstrakt::Side. -/
inductive Side where
  | Left
  | Right
  | Top
  | Bottom
deriving DecidableEq, Repr

/-- Top-layer location, mirroring abstrakt::TopLoc. -/
structure TopLoc where
  track : Nat
  at_ : Nat
  relz : RelZ
deriving DecidableEq, Repr

/-- Port physical binding, mirroring abstrakt::PortKind. -/
inductive PortKind where
  | Edge (layer track : Nat) (side : Side)
  | Zlocs (locs : List TopLoc)
  | Zfull (track : Nat)
deriving DecidableEq, Repr

/-- Abstract-layout port, mirroring abstrakt::Port. -/
structure Port where
  name : String
  kind : PortKind
deriving DecidableEq, Repr

/-- Abstract layout, mirroring abstrakt::Abstract. -/
structure Abstract where
  name : String
  outline : Outline
  top_layer : Nat
  ports : List Port
deriving DecidableEq, Repr

end abstrakt

/-- Layout library, mirroring struct Library. The SlotMap stores are
    modelled as lists in insertion order; the nested sub-library vector makes
    the type recursive, hence an inductive with explicit projections. -/
inductive Library where
  | mk (name : String) (stack : Stack) (cell_names : List String)
       (abstracts : List abstrakt.Abstract) (cells : List Cell)
       (libs : List Library)

/-- Library name projection. -/
def Library.name : Library → String
  | .mk n _ _ _ _ _ => n

/-- Library stack projection. -/
def Library.stack : Library → Stack
  | .mk _ s _ _ _ _ => s

/-- Library abstracts projection. -/
def Library.abstracts : Library → List abstrakt.Abstract
  | .mk _ _ _ a _ _ => a

/-- Library cells projection. -/
def Library.cells : Library → List Cell
  | .mk _ _ _ _ c _ => c

namespace raw

/-- Flat geometric shape, mirroring raw::Shape. -/
inductive Shape where
  | Rect (p0 p1 : Point)
  | Poly (pts : List Point)
deriving DecidableEq, Repr

/-- In-place translation of a shape, mirroring raw::Shape::shift. -/
def Shape.shift (s : Shape) (pt : Point) : Shape :=
  match s with
  | .Rect p0 p1 => .Rect ⟨p0.x + pt.x, p0.y + pt.y⟩ ⟨p1.x + pt.x, p1.y + pt.y⟩
  | .Poly pts => .Poly (pts.map fun p => ⟨p.x + pt.x, p.y + pt.y⟩)

/-- Primitive element, mirroring raw::Element. -/
structure Element where
  net : Option String
  layer : DataTypeMap
  inner : Shape
deriving DecidableEq, Repr

/-- Instance array, mirroring raw::InstArray. -/
structure InstArray where
  inst_name : String
  cell_name : String
  rows : Nat
  cols : Nat
  xpitch : Nat
  ypitch : Nat
  p0 : Point
  reflect : Bool
  angle : Option Float

/-- Raw layout cell, mirroring raw::Cell. -/
structure Cell where
  name : String
  insts : List Instance
  arrays : List InstArray
  elems : List Element

/-- Raw layout library, mirroring raw::Library (recursive through its
    sub-library vector, hence an inductive with explicit projections). -/
inductive Library where
  | mk (name : String) (units : Layout21.Unit) (libs : List Library)
       (cells : List Cell)

/-- Raw library name projection. -/
def Library.name : Library → String
  | .mk n _ _ _ => n

/-- Raw library units projection. -/
def Library.units : Library → Layout21.Unit
  | .mk _ u _ _ => u

/-- Raw library cells projection. -/
def Library.cells : Library → List Cell
  | .mk _ _ _ c => c

end raw

/-- Conversion of a track's segments into rectangle elements, mirroring
    RawConverter::convert_track. Fails when the layer declares no raw data. -/
def convert_track (track : Track) : Except LayoutError (List raw.Element) :=
  match track.layer.raw with
  | none => .error (.msg "Raw-Layout Layer Not Defined")
  | some layer =>
    .ok (track.segments.map fun seg =>
      match track.dir with
      | .Horiz =>
        { net := seg.net, layer := layer,
          inner := .Rect ⟨(seg.start : Int), track.start⟩
                         ⟨(seg.stop : Int), track.start + (track.width : Int)⟩ }
      | .Vert =>
        { net := seg.net, layer := layer,
          inner := .Rect ⟨track.start, (seg.start : Int)⟩
                         ⟨track.start + (track.width : Int), (seg.stop : Int)⟩ })

/-- Conversion of an outline into a boundary polygon, mirroring
    RawConverter::convert_outline. -/
def convert_outline (lib : Library) (outline : Outline) :
    Except LayoutError raw.Element :=
  match lib.stack.boundary_layer with
  | none => .error (.msg "Cannot Convert Abstract to Raw without Boundary Layer")
  | some layer =>
    let pts := outline.points
    let pts := pts.map fun p => p.scale (lib.stack.xpitch : Int) (lib.stack.ypitch : Int)
    .ok { net := none, layer := layer, inner := .Poly pts }

/-- Conversion of an abstract to an outline-only raw cell, mirroring
    RawConverter::convert_abstract. -/
def convert_abstract (lib : Library) (abs : abstrakt.Abstract) :
    Except LayoutError raw.Cell := do
  let outline ← convert_outline lib abs.outline
  pure { name := abs.name, insts := [], arrays := [], elems := [outline] }

/-- Single-period swatch of a layer, mirroring RawConverter::convert_layer_unit. -/
def convert_layer_unit (lib : Library) (layer : Layer) :
    Except LayoutError raw.Cell := do
  let pitch :=
    match layer.dir with
    | .Horiz => lib.stack.xpitch
    | .Vert => lib.stack.ypitch
  let elemss ← layer.tracks.mapM fun t =>
    convert_track { t with segments := [⟨none, 0, pitch⟩] }
  pure { name := layer.name ++ "::unit", insts := [], arrays := [],
         elems := elemss.flatten }

/-- Short-lived pairing of an instance with the outline and top layer of its
    definition, mirroring the TempInstance struct local to convert_cell. -/
structure TempInstance where
  inst : Instance
  outline : Outline
  top_layer : Nat

/-- Resolution of one instance's cell reference, mirroring the map at the
    start of convert_cell. Unresolvable keys unwrap-panic in the source and a
    bare Name reference is a panic("FIXME!"); both are modelled as errors. -/
def resolveInstance (lib : Library) (inst : Instance) :
    Except LayoutError TempInstance :=
  match inst.cell with
  | .Cell k =>
    match lib.cells[k]? with
    | some c => .ok ⟨inst, c.outline, c.top_layer⟩
    | none => .error .Tbd
  | .Abstract k =>
    match lib.abstracts[k]? with
    | some a => .ok ⟨inst, a.outline, a.top_layer⟩
    | none => .error .Tbd
  | .Name _ => .error (.msg "FIXME!")

/-- Append one assignment to the bucket at an index of a per-layer index. -/
def listPush : List (List Assign) → Nat → Assign → List (List Assign)
  | [], _, _ => []
  | l :: rest, 0, a => (l ++ [a]) :: rest
  | l :: rest, n + 1, a => l :: listPush rest n a

/-- Collection of assignments by layer and by the adjacent (relz) layer,
    mirroring the two index vectors built in convert_cell. Both vectors have
    top buckets; an out-of-range bucket index panics in the source (for Below
    on layer 0 the index underflows), modelled as errors. -/
def buildAssignIdxGo (top : Nat) (fwd inv : List (List Assign)) :
    List Assign → Except LayoutError (List (List Assign) × List (List Assign))
  | [] => .ok (fwd, inv)
  | assn :: rest =>
    if assn.at_.layer < top then
      match assn.at_.relz with
      | .Above =>
        if assn.at_.layer + 1 < top then
          buildAssignIdxGo top (listPush fwd assn.at_.layer assn)
            (listPush inv (assn.at_.layer + 1) assn) rest
        else .error .Tbd
      | .Below =>
        if assn.at_.layer = 0 then .error .Tbd
        else if assn.at_.layer - 1 < top then
          buildAssignIdxGo top (listPush fwd assn.at_.layer assn)
            (listPush inv (assn.at_.layer - 1) assn) rest
        else .error .Tbd
    else .error .Tbd

/-- Assignment index construction for a cell. -/
def buildAssignIdx (top : Nat) (assigns : List Assign) :
    Except LayoutError (List (List Assign) × List (List Assign)) :=
  buildAssignIdxGo top (List.replicate top []) (List.replicate top []) assigns

/-- Cast from isize to usize, as the source's as-conversion on blockage
    coordinates (wraps modulo two to the sixty-fourth). -/
def usizeOfIsize (i : Int) : Nat := (i % 18446744073709551616).toNat

/-- Application of one relevant net assignment to a track period, mirroring
    the assignment loop body of convert_cell: select the signal track by
    bitwise AND of the track index with the signal count, locate the center
    of the adjacent layer's track, and bind the net to the covering segment.
    Out-of-range indexing and the signal_track_center panic are modelled as
    errors; a missing covering segment is the source's typed error. -/
def applyAssign (lib : Library) (layernum nsig : Nat) (period : TrackPeriod)
    (assn : Assign) : Except LayoutError TrackPeriod := do
  let i := assn.at_.track &&& nsig
  let track ←
    match period.signals[i]? with
    | some t => pure t
    | none => throw .Tbd
  let other_layer ←
    match assn.at_.relz with
    | .Above =>
      match lib.stack.layers[layernum + 1]? with
      | some l => pure l
      | none => throw .Tbd
    | .Below =>
      if layernum = 0 then throw .Tbd
      else
        match lib.stack.layers[layernum - 1]? with
        | some l => pure l
        | none => throw .Tbd
  let dist ←
    match other_layer.signal_track_center assn.at_.at_ with
    | some d => pure d
    | none => throw .Tbd
  let segs ←
    match assign_net_at track.segments dist assn.net with
    | some s => pure s
    | none => throw (.msg "COULDNT FIND SEGMENT")
  pure { period with signals := period.signals.set i { track with segments := segs } }

/-- One row of the main loop of convert_cell: intersect instances with the
    row, cut their blockages out of a fresh track period, apply the relevant
    net assignments, and convert every rail then signal track into shifted
    rectangle elements. -/
def convertRow (lib : Library) (layer : Layer) (layernum : Nat)
    (layerAssigns : List Assign) (temp_instances : List TempInstance)
    (n pitch : Nat) (rown : Nat) : Except LayoutError (List raw.Element) := do
  let rownI : Int := rown
  let layer_instances := temp_instances.filter fun i => layer.index ≤ i.top_layer
  let intersecting := layer_instances.filter fun i =>
    decide (i.inst.p0.coord layer.dir.other ≤ rownI ∧
            rownI < i.inst.p0.coord layer.dir.other + (i.outline.max layer.dir.other : Int))
  let blockages := intersecting.map fun i =>
    (usizeOfIsize (i.inst.p0.coord layer.dir),
     usizeOfIsize (i.inst.p0.coord layer.dir) + i.outline.max layer.dir)
  let period := layer.to_track_period (pitch * n)
  let period ← blockages.foldlM (fun per b => per.cut (b.1 * pitch) (b.2 * pitch)) period
  let nsig := period.signals.length
  let relevant := layerAssigns.filter fun assn =>
    decide (rown * nsig ≤ assn.at_.track ∧ assn.at_.track < (rown + 1) * nsig)
  let period ← relevant.foldlM (applyAssign lib layernum nsig) period
  let shift := Point.offset (rownI * (pitch : Int)) layer.dir.other
  let railElems ← period.rails.mapM convert_track
  let sigElems ← period.signals.mapM convert_track
  pure ((railElems.flatten ++ sigElems.flatten).map fun e =>
    { e with inner := e.inner.shift shift })

/-- Conversion of a cell to a raw cell, mirroring RawConverter::convert_cell:
    reject non-rectangular outlines, resolve instances, index assignments,
    emit per-layer per-row track elements, append the outline polygon, and
    scale instance placements by the stack pitches. Indexing panics of the
    source are modelled as errors. -/
def convert_cell (lib : Library) (cell : Cell) : Except LayoutError raw.Cell := do
  if cell.outline.x.length > 1 then
    throw (.Message "Non-rectangular outline; not supported (yet)")
  let temp_instances ← cell.instances.mapM (resolveInstance lib)
  let (assignments_by_layer, _inverse_assignments_by_layer) ←
    buildAssignIdx cell.top_layer cell.assignments
  let x0 ←
    match cell.outline.x with
    | x0 :: _ => pure x0
    | [] => throw LayoutError.Tbd
  let y0 ←
    match cell.outline.y with
    | y0 :: _ => pure y0
    | [] => throw LayoutError.Tbd
  let elems ← (List.range cell.top_layer).foldlM
    (fun (elems : List raw.Element) layernum => do
      let layer ←
        match lib.stack.layers[layernum]? with
        | some l => pure l
        | none => throw LayoutError.Tbd
      let (m, n, pitch) :=
        match layer.dir with
        | .Horiz => (y0, x0, lib.stack.xpitch)
        | .Vert => (x0, y0, lib.stack.ypitch)
      let rowElems ← (List.range m).foldlM
        (fun (acc : List raw.Element) rown => do
          let es ← convertRow lib layer layernum
            (assignments_by_layer.getD layernum []) temp_instances n pitch rown
          pure (acc ++ es))
        []
      pure (elems ++ rowElems))
    []
  let outlineElem ← convert_outline lib cell.outline
  let elems := elems ++ [outlineElem]
  let insts := cell.instances.map fun inst =>
    { inst with p0 := inst.p0.scale (lib.stack.xpitch : Int) (lib.stack.ypitch : Int) }
  pure { name := cell.name, insts := insts, arrays := [], elems := elems }

/-- Library-level conversion driver, mirroring RawConverter::convert_all:
    one unit cell per stack layer, then every cell, then every abstract.
    The source's name-collision scan before converting an abstract is a
    no-op (its continue targets the inner scanning loop), so every abstract
    is converted unconditionally. -/
def convert_all (lib : Library) : Except LayoutError raw.Library := do
  let units ← lib.stack.layers.mapM (convert_layer_unit lib)
  let cells ← lib.cells.mapM (convert_cell lib)
  let absts ← lib.abstracts.mapM (convert_abstract lib)
  pure (raw.Library.mk lib.name lib.stack.units [] (units ++ cells ++ absts))

/-- Entry list shared by the metal layers of the reference test stack. -/
def metalEntries : List TrackSpec :=
  [TrackSpec.rail 490,
   TrackSpec.pat [TrackEntry.gap 230, TrackEntry.sig 140] 7,
   TrackSpec.gap 230,
   TrackSpec.rail 490,
   TrackSpec.pat [TrackEntry.gap 230, TrackEntry.sig 140] 7,
   TrackSpec.gap 230,
   TrackSpec.rail 490]

/-- One metal layer of the reference test stack. -/
def mkTestLayer (index : Nat) (name : String) (dir : Dir) (num : Int) : Layer :=
  { index := index, name := name, dir := dir, cutsize := 50,
    entries := metalEntries, offset := -245,
    stream_layer := some ⟨num, 20⟩,
    raw := some { layernum := num, drawing := some 20, text := some 5, other := [] } }

/-- The reference Stack built by the test suite: 6600 unit pitches, a
    boundary layer, and four metal layers of alternating direction. -/
def testStack : Stack :=
  { units := .Nano, xpitch := 6600, ypitch := 6600,
    boundary_layer := some { layernum := 236, drawing := some 0, text := none, other := [] },
    layers := [mkTestLayer 1 "met1" .Horiz 68, mkTestLayer 2 "met2" .Vert 69,
               mkTestLayer 3 "met3" .Horiz 70, mkTestLayer 4 "met4" .Vert 71],
    vias := [{ index := 0, name := "mcon", between := (0, 1), size := Point.new 140 140,
               stream_layer := some ⟨67, 44⟩ },
             { index := 1, name := "via1", between := (1, 2), size := Point.new 140 140,
               stream_layer := some ⟨68, 44⟩ },
             { index := 2, name := "via2", between := (2, 3), size := Point.new 140 140,
               stream_layer := some ⟨69, 44⟩ }] }

/-- The single-layer scenario of the specification: entries
    rail(490), pat([gap(230), sig(140)], 7), gap(230), rail(490), offset -245. -/
def scenarioLayer : Layer :=
  { index := 1, name := "met1", dir := .Horiz, cutsize := 50,
    entries := [TrackSpec.rail 490,
                TrackSpec.pat [TrackEntry.gap 230, TrackEntry.sig 140] 7,
                TrackSpec.gap 230,
                TrackSpec.rail 490],
    offset := -245, stream_layer := none, raw := none }

/-- The scenario layer with its pattern replaced by its literal expansion
    (the pattern's entries written out nrep times as plain entries). -/
def scenarioLayerExpanded : Layer :=
  { scenarioLayer with
      entries :=
        [TrackSpec.rail 490] ++
        ((List.replicate 7 [TrackEntry.gap 230, TrackEntry.sig 140]).flatten.map
          TrackSpec.Entry) ++
        [TrackSpec.gap 230, TrackSpec.rail 490] }

/-- The test cell HereGoes: 5 by 5 rectangular outline, top layer 3, no
    instances, a single clk assignment at layer 1, track 0, at 1, Above. -/
def hereGoes : Cell :=
  { name := "HereGoes", top_layer := 3, outline := ⟨[5], [5]⟩, instances := [],
    assignments := [{ net := "clk",
                      at_ := { layer := 1, track := 0, at_ := 1, relz := .Above } }],
    cuts := [] }

/-- Library holding the test stack and the HereGoes cell. -/
def hereGoesLib : Library := .mk "HereGoesLib" testStack [] [] [hereGoes] []

/-- Minimal datatype map for small fixtures. -/
def simpleDtm : raw.DataTypeMap :=
  { layernum := 1, drawing := some 0, text := none, other := [] }

/-- Minimal single-signal layer for small fixtures. -/
def miniLayer (i : Nat) : Layer :=
  { index := i, name := "m", dir := .Horiz, cutsize := 0,
    entries := [TrackSpec.sig 2], offset := 0, stream_layer := none,
    raw := some simpleDtm }

/-- A stack without a boundary layer: two minimal metal layers. -/
def noBoundaryStack : Stack :=
  { units := .Nano, xpitch := 4, ypitch := 4, boundary_layer := none,
    layers := [miniLayer 0, miniLayer 1], vias := [] }

/-- A rectangular cell with no instances and exactly one net assignment,
    hosted on the boundary-less stack. -/
def noBoundaryCell : Cell :=
  { name := "C", top_layer := 2, outline := ⟨[1], [1]⟩, instances := [],
    assignments := [{ net := "n",
                      at_ := { layer := 0, track := 0, at_ := 0, relz := .Above } }],
    cuts := [] }

/-- Library over the boundary-less stack. -/
def noBoundaryLib : Library := .mk "L" noBoundaryStack [] [] [noBoundaryCell] []

/-- A library with a concrete cell and an abstract sharing the name A. -/
def dupCell : Cell :=
  { name := "A", top_layer := 0, outline := ⟨[1], [1]⟩, instances := [],
    assignments := [], cuts := [] }

/-- The abstract that collides with dupCell by name. -/
def dupAbstract : abstrakt.Abstract :=
  { name := "A", outline := ⟨[1], [1]⟩, top_layer := 0, ports := [] }

/-- Library with an empty layer stack, one concrete cell named A and one
    abstract named A. -/
def dupLib : Library :=
  .mk "DupLib"
    { units := .Nano, xpitch := 1, ypitch := 1, boundary_layer := some simpleDtm,
      layers := [], vias := [] }
    [] [dupAbstract] [dupCell] []

/-- Modelled from the claim's words for the round-trip property: the total
    number of rail and signal tracks across all rows of all routed layers of
    a cell (one row per cross-axis outline pitch, rails plus signals per
    period on each row). -/
def specRailSignalTrackTotal (lib : Library) (cell : Cell) : Nat :=
  ((List.range cell.top_layer).map fun ln =>
    match lib.stack.layers[ln]? with
    | some layer =>
      (match layer.dir with
       | .Horiz => cell.outline.y.headD 0
       | .Vert => cell.outline.x.headD 0) *
      ((layer.to_track_period 1).rails.length + (layer.to_track_period 1).signals.length)
    | none => 0).sum

/-- Count of rectangle elements of a raw cell carrying a given net name. -/
def countNetRects (c : raw.Cell) (net : String) : Nat :=
  c.elems.countP fun e =>
    decide (e.net = some net) &&
    (match e.inner with
     | raw.Shape.Rect _ _ => true
     | _ => false)

/-- The track-segment invariant of the specification: segments are sorted
    by start and pairwise non-overlapping (each segment ends no later than
    the next one begins) and each segment satisfies start < stop. -/
def SegInv (l : List TrackSegment) : Prop :=
  List.Chain' (fun a b => a.stop ≤ b.start) l ∧ ∀ s ∈ l, s.start < s.stop

/-- Specification-level single-pass description of the effect of Track::cut
    on a sorted, non-overlapping segment list: delete fully covered segments,
    trim partially covered ones, split a segment strictly containing the cut,
    and leave segments past the cut untouched. Proved equal to the result of
    cutSegs on invariant-satisfying inputs. -/
def cutSimple (start stop : Nat) : List TrackSegment → List TrackSegment
  | [] => []
  | seg :: rest =>
    if seg.start > stop then seg :: rest
    else if stop < seg.start then seg :: cutSimple start stop rest
    else if start ≤ seg.start ∧ stop ≥ seg.stop then cutSimple start stop rest
    else if start > seg.start ∧ stop ≥ seg.stop then
      { seg with stop := start } :: cutSimple start stop rest
    else if start ≤ seg.start ∧ stop < seg.stop then
      { seg with start := stop } :: cutSimple start stop rest
    else
      { seg with stop := start } :: { seg with start := stop } :: cutSimple start stop rest

/-- Boolean check of sortedness and non-overlap of a segment list. -/
def segSortedB : List TrackSegment → Bool
  | [] => true
  | [_] => true
  | a :: b :: t => (a.stop ≤ b.start) && segSortedB (b :: t)

/-- Boolean check of the full track-segment invariant. -/
def segInvB (l : List TrackSegment) : Bool :=
  segSortedB l && l.all fun s => s.start < s.stop

/-- Check that every pair of consecutive points shares an x or a y
    coordinate, so that each edge of the path is axis-parallel. -/
def isRectilinear : List Point → Bool
  | [] => true
  | [_] => true
  | p :: q :: rest =>
    (decide (p.x = q.x) || decide (p.y = q.y)) && isRectilinear (q :: rest)

deriving instance DecidableEq for Except

/-
  Theorems.
-/

/-- Claim C2 (code bug witness evaluation): converting a library holding a
    concrete cell named A and an abstract also named A emits a raw cell for
    both: the output cell list is A, A, so the abstract is not skipped and
    the output does contain a duplicate name. -/
theorem convertAll_duplicate_abstract_names :
    dupCell.name = "A" ∧ dupAbstract.name = "A" ∧
    (convert_all dupLib).map (fun out => out.cells.map raw.Cell.name) =
      .ok ["A", "A"] := by decide

/-- Claim C3 counterexample: the valid rectangular outline with x = [5],
    y = [5] (n = 1) has 4 = 2n + 2 points, not 2n + 1 = 3 as claimed. -/
theorem outline_points_count_counterexample :
    Outline.new [5] [5] = .ok ⟨[5], [5]⟩ ∧
    (Outline.points ⟨[5], [5]⟩).length = 4 ∧
    ¬ (Outline.points ⟨[5], [5]⟩).length = 2 * 1 + 1 := by decide

/-- Claim C4 counterexample: the scenario layer with entries rail(490),
    pat([gap(230), sig(140)], 7), gap(230), rail(490) flattens to 17 entries
    (3 literal plus 14 expanded), not 16 as claimed. -/
theorem flat_entries_scenario_counterexample :
    scenarioLayer.flat_entries.length = 17 ∧
    ¬ scenarioLayer.flat_entries.length = 16 := by decide

/-- Claim C4 (amended): the scenario layer flattens to 17 entries and has 7
    signal tracks per period. -/
theorem flat_entries_scenario :
    scenarioLayer.flat_entries.length = 17 ∧
    scenarioLayer.num_signal_tracks = 7 := by decide

/-- Claim C5 counterexample: a library satisfying all stated premises (one
    cell with rectangular outline, no instances, exactly one net assignment)
    whose stack lacks a boundary layer fails conversion instead of
    succeeding, so the claim as stated is false. -/
theorem roundtrip_counterexample :
    noBoundaryCell.outline.x.length = 1 ∧
    noBoundaryCell.instances.length = 0 ∧
    noBoundaryCell.assignments.length = 1 ∧
    (convert_cell noBoundaryLib noBoundaryCell).map (fun c => c.elems.length) =
      .error (.Message "Cannot Convert Abstract to Raw without Boundary Layer") := by
  decide

/-- Claim C5 (amended): on the reference stack, converting the HereGoes cell
    (rectangular 5 by 5 outline, no instances, one clk assignment) succeeds
    and yields a raw cell whose element count is the total number of rail and
    signal tracks across all rows plus one outline polygon, with exactly one
    rectangle element carrying the net clk. -/
theorem roundtrip_reference_cell :
    (convert_cell hereGoesLib hereGoes).map
        (fun c => (c.elems.length, countNetRects c "clk")) =
      .ok (specRailSignalTrackTotal hereGoesLib hereGoes + 1, 1) := by decide

/-- The Boolean consecutive-pair check of the x loop of Outline::new agrees
    with the chain of non-increases. -/
theorem nonIncreasing_iff (x : List Nat) :
    nonIncreasing x = true ↔ List.Chain' (fun a b => b ≤ a) x := by
  induction x with
  | nil => simp [nonIncreasing]
  | cons a t ih =>
    cases t with
    | nil => simp [nonIncreasing]
    | cons b t' =>
      rw [nonIncreasing, List.chain'_cons, Bool.and_eq_true, decide_eq_true_iff]
      exact and_congr Iff.rfl ih

/-- The Boolean consecutive-pair check of the y loop of Outline::new agrees
    with the chain of non-decreases. -/
theorem nonDecreasing_iff (y : List Nat) :
    nonDecreasing y = true ↔ List.Chain' (fun a b => a ≤ b) y := by
  induction y with
  | nil => simp [nonDecreasing]
  | cons a t ih =>
    cases t with
    | nil => simp [nonDecreasing]
    | cons b t' =>
      rw [nonDecreasing, List.chain'_cons, Bool.and_eq_true, decide_eq_true_iff]
      exact and_congr Iff.rfl ih

/-- Claim C7: Outline::new succeeds exactly when the lengths match, the
    vectors are non-empty, x never increases and y never decreases between
    consecutive entries, and on success it returns the given vectors. -/
theorem outline_new_spec (x y : List Nat) :
    ((∃ o, Outline.new x y = .ok o) ↔
      (x.length = y.length ∧ x ≠ [] ∧
       List.Chain' (fun a b => b ≤ a) x ∧ List.Chain' (fun a b => a ≤ b) y)) ∧
    (∀ o, Outline.new x y = .ok o → o = ⟨x, y⟩) := by
  constructor
  · constructor
    · rintro ⟨o, ho⟩
      rw [Outline.new] at ho
      split_ifs at ho with h1 h2 h3 h4
      refine ⟨by omega, ?_, ?_, ?_⟩
      · intro h
        subst h
        simp at h2
      · rw [Bool.not_eq_true', Bool.not_eq_false] at h3
        exact (nonIncreasing_iff x).mp h3
      · rw [Bool.not_eq_true', Bool.not_eq_false] at h4
        exact (nonDecreasing_iff y).mp h4
    · rintro ⟨h1, h2, h3, h4⟩
      have hx : nonIncreasing x = true := (nonIncreasing_iff x).mpr h3
      have hy : nonDecreasing y = true := (nonDecreasing_iff y).mpr h4
      have hlen : ¬ x.length < 1 := by
        have := List.length_pos.mpr h2
        omega
      refine ⟨⟨x, y⟩, ?_⟩
      rw [Outline.new, if_neg (by omega), if_neg hlen, if_neg (by simp [hx]),
          if_neg (by simp [hy])]
  · intro o ho
    rw [Outline.new] at ho
    split_ifs at ho
    exact (Except.ok.inj ho).symm

/-- Claim C7 witness: a concrete staircase outline is accepted and returned
    verbatim. -/
theorem outline_new_spec_witness :
    (∃ o, Outline.new [2, 1] [3, 4] = .ok o) ∧
    ((⟨[2, 1], [3, 4]⟩ : Outline) = ⟨[2, 1], [3, 4]⟩) :=
  ⟨(outline_new_spec [2, 1] [3, 4]).1.mpr
      (by refine ⟨rfl, by simp, ?_, ?_⟩ <;> norm_num [List.chain'_cons]),
   (outline_new_spec [2, 1] [3, 4]).2 ⟨[2, 1], [3, 4]⟩ (by decide)⟩

/-- Length of the point loop: two points per coordinate pair plus the final
    implied point. -/
theorem pointsAux_length (zs : List (Nat × Nat)) :
    ∀ yp : Int, (pointsAux yp zs).length = 2 * zs.length + 1 := by
  induction zs with
  | nil => intro yp; simp [pointsAux]
  | cons z t ih =>
    intro yp
    obtain ⟨xi, yi⟩ := z
    simp [pointsAux, ih]
    omega

/-- Rectilinearity of the point loop followed by the closing origin, for any
    starting point that agrees with the threaded y value. -/
theorem isRectilinear_pointsAux (zs : List (Nat × Nat)) :
    ∀ (yp : Int) (p : Point), p.y = yp →
      isRectilinear (p :: pointsAux yp zs ++ [⟨0, 0⟩]) = true := by
  induction zs with
  | nil =>
    intro yp p hp
    simp [pointsAux, isRectilinear, hp]
  | cons z t ih =>
    intro yp p hp
    obtain ⟨xi, yi⟩ := z
    have htail := ih yi ⟨xi, yi⟩ rfl
    simp only [pointsAux, List.cons_append, isRectilinear] at htail ⊢
    simp [hp, htail]

/-- Claim C3 (amended): for an outline with equally long, non-empty
    coordinate vectors, points yields exactly 2n + 2 vertices, starts at the
    origin, and the path closed by the implicit edge back to the origin is
    rectilinear. -/
theorem outline_points_amended (o : Outline)
    (hlen : o.x.length = o.y.length) (_hpos : 1 ≤ o.x.length) :
    o.points.length = 2 * o.x.length + 2 ∧
    o.points.head? = some ⟨0, 0⟩ ∧
    isRectilinear (o.points ++ [⟨0, 0⟩]) = true := by
  refine ⟨?_, rfl, ?_⟩
  · simp [Outline.points, pointsAux_length, hlen]
  · simpa [Outline.points] using
      isRectilinear_pointsAux (o.x.zip o.y) 0 ⟨0, 0⟩ rfl

/-- Claim C3 witness: the amended statement at the 5 by 5 rectangle. -/
theorem outline_points_amended_witness :
    (Outline.points ⟨[5], [5]⟩).length = 2 * 1 + 2 ∧
    (Outline.points ⟨[5], [5]⟩).head? = some ⟨0, 0⟩ ∧
    isRectilinear (Outline.points ⟨[5], [5]⟩ ++ [⟨0, 0⟩]) = true :=
  outline_points_amended ⟨[5], [5]⟩ (by decide) (by decide)

/-- Entry flattening distributes over list append. -/
theorem flatEntriesAux_append (a b : List TrackSpec) :
    flatEntriesAux (a ++ b) = flatEntriesAux a ++ flatEntriesAux b := by
  induction a with
  | nil => simp [flatEntriesAux]
  | cons e t ih =>
    cases e with
    | Entry ee => simp [flatEntriesAux, ih]
    | Pat p => simp [flatEntriesAux, ih]

/-- Flattening literal entries returns them unchanged. -/
theorem flatEntriesAux_map_entry (es : List TrackEntry) :
    flatEntriesAux (es.map TrackSpec.Entry) = es := by
  induction es with
  | nil => rfl
  | cons e t ih => simp [flatEntriesAux, ih]

/-- Flattening a replicated literal block returns the replicated entries. -/
theorem flatEntriesAux_flatten_map (n : Nat) (es : List TrackEntry) :
    flatEntriesAux (List.replicate n (es.map TrackSpec.Entry)).flatten =
      (List.replicate n es).flatten := by
  induction n with
  | zero => rfl
  | succ k ih =>
    simp [List.replicate_succ, flatEntriesAux_append, flatEntriesAux_map_entry, ih]

/-- Claim C8: pitch is the sum of the widths of the flattened entries, and
    replacing a pattern by its literal nrep-fold expansion leaves the pitch
    unchanged. -/
theorem pitch_flatten_spec (l : Layer) :
    l.pitch = (l.flat_entries.map TrackEntry.width).sum ∧
    (∀ (l' : Layer) (pre post : List TrackSpec) (p : Pattern),
      l.entries = pre ++ TrackSpec.Pat p :: post →
      l'.entries =
        pre ++ (List.replicate p.nrep p.entries).flatten.map TrackSpec.Entry ++ post →
      l'.pitch = l.pitch) := by
  refine ⟨rfl, ?_⟩
  intro l' pre post p hl hl'
  have key : l'.flat_entries = l.flat_entries := by
    rw [Layer.flat_entries, Layer.flat_entries, hl, hl']
    simp [flatEntriesAux_append, flatEntriesAux_map_entry, flatEntriesAux,
          flatEntriesAux_flatten_map]
  rw [Layer.pitch, Layer.pitch, key]

/-- Claim C8 witness: the scenario layer and its pattern-expanded variant
    have the same pitch. -/
theorem pitch_flatten_spec_witness :
    scenarioLayerExpanded.pitch = scenarioLayer.pitch :=
  (pitch_flatten_spec scenarioLayer).2 scenarioLayerExpanded
    [TrackSpec.rail 490] [TrackSpec.gap 230, TrackSpec.rail 490]
    ⟨[TrackEntry.gap 230, TrackEntry.sig 140], 7⟩ (by decide) (by decide)

/-- The Boolean sortedness check agrees with the chain of non-overlaps. -/
theorem segSortedB_iff (l : List TrackSegment) :
    segSortedB l = true ↔ List.Chain' (fun a b => a.stop ≤ b.start) l := by
  induction l with
  | nil => simp [segSortedB]
  | cons a t ih =>
    cases t with
    | nil => simp [segSortedB]
    | cons b t' =>
      rw [segSortedB, List.chain'_cons, Bool.and_eq_true, decide_eq_true_iff]
      exact and_congr Iff.rfl ih

/-- The track-segment invariant is equivalent to its Boolean check. -/
theorem segInv_iff (l : List TrackSegment) : SegInv l ↔ segInvB l = true := by
  rw [SegInv, segInvB, Bool.and_eq_true, List.all_eq_true]
  apply and_congr (segSortedB_iff l).symm
  simp

/-- The tail of an invariant-satisfying segment list satisfies the invariant. -/
theorem segInv_tail {a : TrackSegment} {l : List TrackSegment}
    (h : SegInv (a :: l)) : SegInv l :=
  ⟨h.1.tail, fun s hs => h.2 s (List.mem_cons_of_mem _ hs)⟩

/-- Every segment after the head of an invariant-satisfying list starts no
    earlier than the head stops. -/
theorem segInv_head_le (a : TrackSegment) (l : List TrackSegment)
    (h : SegInv (a :: l)) : ∀ s ∈ l, a.stop ≤ s.start := by
  induction l generalizing a with
  | nil => simp
  | cons b t ih =>
    intro s hs
    obtain ⟨hc, hlt⟩ := h
    rw [List.chain'_cons] at hc
    rw [List.mem_cons] at hs
    rcases hs with rfl | hs
    · exact hc.1
    · have hbt : SegInv (b :: t) :=
        ⟨hc.2, fun x hx => hlt x (List.mem_cons_of_mem _ hx)⟩
      have h1 := ih b hbt s hs
      have h2 : b.start < b.stop := hlt b (by simp)
      omega

/-- Found segments are members containing the queried distance. -/
theorem segment_at_mem_cover (segs : List TrackSegment) (dist : Int)
    (s : TrackSegment) (h : segment_at segs dist = some s) :
    s ∈ segs ∧ (s.start : Int) ≤ dist ∧ dist ≤ (s.stop : Int) := by
  induction segs with
  | nil => simp [segment_at] at h
  | cons a t ih =>
    rw [segment_at] at h
    split_ifs at h with h1 h2
    · obtain rfl := Option.some.inj h
      exact ⟨List.mem_cons_self _ _, h2⟩
    · obtain ⟨hm, hc⟩ := ih h
      exact ⟨List.mem_cons_of_mem _ hm, hc⟩

/-- When some segment of a sorted, non-overlapping list contains the queried
    distance, the scan finds one. -/
theorem segment_at_isSome (segs : List TrackSegment) (dist : Int)
    (hinv : SegInv segs)
    (hex : ∃ s ∈ segs, (s.start : Int) ≤ dist ∧ dist ≤ (s.stop : Int)) :
    (segment_at segs dist).isSome := by
  induction segs with
  | nil => simp at hex
  | cons a t ih =>
    rw [segment_at]
    split_ifs with h1 h2
    · exfalso
      obtain ⟨s, hs, hc1, hc2⟩ := hex
      rw [List.mem_cons] at hs
      rcases hs with rfl | hs
      · omega
      · have h3 := segInv_head_le a t hinv s hs
        have h4 : a.start < a.stop := hinv.2 a (by simp)
        omega
    · simp
    · apply ih (segInv_tail hinv)
      obtain ⟨s, hs, hc1, hc2⟩ := hex
      rw [List.mem_cons] at hs
      rcases hs with rfl | hs
      · exact absurd ⟨hc1, hc2⟩ h2
      · exact ⟨s, hs, hc1, hc2⟩

/-- Claim C6: on a track whose segments are sorted by start and
    non-overlapping, segment_at returns a member segment with
    start less than or equal to dist less than or equal to stop exactly when
    such a segment exists, and returns none otherwise. -/
theorem segment_at_spec (segs : List TrackSegment) (dist : Int)
    (hinv : SegInv segs) :
    (∀ s, segment_at segs dist = some s →
      s ∈ segs ∧ (s.start : Int) ≤ dist ∧ dist ≤ (s.stop : Int)) ∧
    ((∃ s ∈ segs, (s.start : Int) ≤ dist ∧ dist ≤ (s.stop : Int)) →
      (segment_at segs dist).isSome) ∧
    (segment_at segs dist = none →
      ∀ s ∈ segs, ¬((s.start : Int) ≤ dist ∧ dist ≤ (s.stop : Int))) := by
  refine ⟨fun s h => segment_at_mem_cover segs dist s h,
          fun hex => segment_at_isSome segs dist hinv hex, ?_⟩
  intro hnone s hs hc
  have := segment_at_isSome segs dist hinv ⟨s, hs, hc⟩
  rw [hnone] at this
  simp at this

/-- Claim C6 witness: on a concrete two-segment track the scan finds the
    covering segment of an interior distance. -/
theorem segment_at_spec_witness :
    (segment_at [⟨none, 0, 5⟩, ⟨none, 8, 9⟩] 3).isSome :=
  (segment_at_spec [⟨none, 0, 5⟩, ⟨none, 8, 9⟩] 3
      ((segInv_iff _).mpr (by decide))).2.1
    ⟨⟨none, 0, 5⟩, by simp, by norm_num⟩

/-- The cut scan never reaches the final error branch: the four overlap
    cases are exhaustive once the break and continue guards have failed. -/
theorem cutScan_isOk (start stop : Nat) (l : List TrackSegment) :
    ∃ out, cutScan start stop l = .ok out := by
  induction l with
  | nil => exact ⟨([], [], none), rfl⟩
  | cons seg rest ih =>
    obtain ⟨⟨rest', rem, ins⟩, hout⟩ := ih
    rw [cutScan]
    split_ifs with h1 h2 h3 h4 h5
    · exact ⟨_, rfl⟩
    · rw [hout]; exact ⟨_, rfl⟩
    · rw [hout]; exact ⟨_, rfl⟩
    · rw [hout]; exact ⟨_, rfl⟩
    · rw [hout]; exact ⟨_, rfl⟩
    · exfalso; omega

/-- Erasing a shifted index list from a cons skips the head. -/
theorem eraseIdxs_map_succ (idxs : List Nat) (a : TrackSegment)
    (l : List TrackSegment) :
    eraseIdxs (a :: l) (idxs.map (· + 1)) = a :: eraseIdxs l idxs := by
  induction idxs with
  | nil => rfl
  | cons i t ih =>
    show (eraseIdxs (a :: l) (t.map (· + 1))).eraseIdx (i + 1) = _
    rw [ih]
    rfl

/-- Shift compatibility of the cut post-processing: consing a survivor onto
    the scanned tail and shifting all indices by one preserves assembly. -/
theorem cutAssemble_shift (x : TrackSegment) (l' : List TrackSegment)
    (rem : List Nat) (ins : Option (Nat × TrackSegment)) :
    cutAssemble (x :: l', rem.map (· + 1), ins.map fun p => (p.1 + 1, p.2)) =
      x :: cutAssemble (l', rem, ins) := by
  cases ins with
  | none =>
    show eraseIdxs (x :: l') (rem.map (· + 1)) = x :: eraseIdxs l' rem
    exact eraseIdxs_map_succ rem x l'
  | some p =>
    obtain ⟨i, s⟩ := p
    rfl

/-- If the cut start lies at or before every segment start, the scan records
    no insertion (no segment takes the internal-split branch). -/
theorem cutScan_noSplit (start stop : Nat) (l : List TrackSegment)
    (hall : ∀ s ∈ l, start ≤ s.start) :
    ∀ out, cutScan start stop l = .ok out → out.2.2 = none := by
  induction l with
  | nil =>
    intro out h
    rw [cutScan] at h
    obtain rfl := Except.ok.inj h
    rfl
  | cons seg rest ih =>
    intro out h
    have hseg : start ≤ seg.start := hall seg (List.mem_cons_self _ _)
    have hrest : ∀ s ∈ rest, start ≤ s.start :=
      fun s hs => hall s (List.mem_cons_of_mem _ hs)
    obtain ⟨⟨rest', rem, ins⟩, hout⟩ := cutScan_isOk start stop rest
    have h0 : ins = none := ih hrest _ hout
    subst h0
    rw [cutScan, hout] at h
    split_ifs at h with h1 h2 h3 h4 h5
    · obtain rfl := Except.ok.inj h; rfl
    · obtain rfl := Except.ok.inj h; rfl
    · exfalso; omega
    · obtain rfl := Except.ok.inj h; rfl
    · exfalso; omega

/-- When every segment starts past the cut stop, the scan breaks at once and
    leaves the list untouched. -/
theorem cutScan_break (start stop : Nat) (l : List TrackSegment)
    (h : ∀ s, l.head? = some s → stop < s.start) :
    cutScan start stop l = .ok (l, [], none) := by
  cases l with
  | nil => rfl
  | cons a t => rw [cutScan, if_pos (h a rfl)]

/-- When every segment starts past the cut stop, the one-pass description
    also leaves the list untouched. -/
theorem cutSimple_break (start stop : Nat) (l : List TrackSegment)
    (h : ∀ s, l.head? = some s → stop < s.start) :
    cutSimple start stop l = l := by
  cases l with
  | nil => rfl
  | cons a t => rw [cutSimple, if_pos (h a rfl)]

/-- Simulation: on a sorted, non-overlapping segment list the two-phase cut
    loop followed by its post-processing computes exactly the one-pass
    description cutSimple. -/
theorem cutScan_sim (start stop : Nat) (l : List TrackSegment) :
    SegInv l → ∀ out, cutScan start stop l = .ok out →
      cutAssemble out = cutSimple start stop l := by
  induction l with
  | nil =>
    intro _ out h
    rw [cutScan] at h
    obtain rfl := Except.ok.inj h
    rfl
  | cons seg rest ih =>
    intro hinv out h
    have hinvt := segInv_tail hinv
    have hheadle := segInv_head_le seg rest hinv
    have hsegin : seg.start < seg.stop := hinv.2 seg (List.mem_cons_self _ _)
    obtain ⟨⟨rest', rem, ins⟩, hout⟩ := cutScan_isOk start stop rest
    rw [cutScan, hout] at h
    rw [cutSimple]
    split_ifs at h with h1 h2 h3 h4 h5
    · -- break
      obtain rfl := Except.ok.inj h
      rw [if_pos h1]
      rfl
    · -- full-cover removal
      obtain rfl := Except.ok.inj h
      rw [if_neg h1, if_neg h1, if_pos h2]
      have h0 : ins = none := by
        refine cutScan_noSplit start stop rest ?_ _ hout
        intro s hs
        have := hheadle s hs
        omega
      subst h0
      rw [← ih hinvt _ hout]
      show eraseIdxs (seg :: rest') (0 :: rem.map (· + 1)) = eraseIdxs rest' rem
      show (eraseIdxs (seg :: rest') (rem.map (· + 1))).eraseIdx 0 = _
      rw [eraseIdxs_map_succ]
      rfl
    · -- tail trim
      obtain rfl := Except.ok.inj h
      rw [if_neg h1, if_neg h1, if_neg h2, if_pos h3]
      rw [cutAssemble_shift, ih hinvt _ hout]
    · -- head trim
      obtain rfl := Except.ok.inj h
      rw [if_neg h1, if_neg h1, if_neg h2, if_neg h3, if_pos h4]
      rw [cutAssemble_shift, ih hinvt _ hout]
    · -- internal split
      have hrestafter : ∀ s, rest.head? = some s → stop < s.start := by
        intro s hs
        have hm : s ∈ rest := by
          cases rest with
          | nil => exact absurd hs (by simp)
          | cons c t =>
            obtain rfl := Option.some.inj hs
            exact List.mem_cons_self _ _
        have := hheadle s hm
        omega
      have hbreak := cutScan_break start stop rest hrestafter
      rw [hout] at hbreak
      have hcomp := Except.ok.inj hbreak
      rw [Prod.mk.injEq, Prod.mk.injEq] at hcomp
      obtain ⟨rfl, rfl, rfl⟩ := hcomp
      obtain rfl := Except.ok.inj h
      rw [if_neg h1, if_neg h1, if_neg h2, if_neg h3, if_neg h4,
          cutSimple_break _ _ _ hrestafter]
      rfl

/-- On a sorted, non-overlapping, non-empty segment list with a well-formed
    cut interval, Track::cut succeeds and returns the one-pass description. -/
theorem cutSegs_eq_cutSimple (segs : List TrackSegment) (start stop : Nat)
    (hinv : SegInv segs) (hne : segs ≠ []) (hss : start < stop) :
    cutSegs segs start stop = .ok (cutSimple start stop segs) := by
  have hguard : ¬(segs.length = 0 ∨ stop ≤ start) := by
    rintro (h | h)
    · exact hne (List.length_eq_zero.mp h)
    · omega
  obtain ⟨out, hout⟩ := cutScan_isOk start stop segs
  rw [cutSegs, if_neg hguard, hout]
  show Except.ok (cutAssemble out) = _
  rw [cutScan_sim start stop segs hinv out hout]

/-- Invariant preservation and interval bounds for the one-pass cut
    description: on a sorted, non-overlapping list whose segments all stop at
    or after the cut start, the result satisfies the invariant and every
    output segment lies inside some input segment. -/
theorem cutSimple_bound_inv (start stop : Nat) (hss : start < stop) :
    ∀ (l : List TrackSegment), SegInv l → (∀ s ∈ l, start ≤ s.stop) →
      SegInv (cutSimple start stop l) ∧
      ∀ s' ∈ cutSimple start stop l,
        ∃ s ∈ l, s.start ≤ s'.start ∧ s'.stop ≤ s.stop := by
  intro l
  induction l with
  | nil =>
    intro _ _
    exact ⟨⟨List.chain'_nil, by simp [cutSimple]⟩, by simp [cutSimple]⟩
  | cons seg rest ih =>
    intro hinv hle
    have hinvt := segInv_tail hinv
    have hheadle := segInv_head_le seg rest hinv
    have hsegin : seg.start < seg.stop := hinv.2 seg (List.mem_cons_self _ _)
    have hlet : ∀ s ∈ rest, start ≤ s.stop :=
      fun s hs => hle s (List.mem_cons_of_mem _ hs)
    obtain ⟨ihInv, ihBound⟩ := ih hinvt hlet
    have hLB : ∀ b, (cutSimple start stop rest).head? = some b →
        seg.stop ≤ b.start := by
      intro b hb
      have hmem : b ∈ cutSimple start stop rest := by
        cases hcs : cutSimple start stop rest with
        | nil => rw [hcs] at hb; exact absurd hb (by simp)
        | cons c t =>
          rw [hcs] at hb
          obtain rfl := Option.some.inj hb
          exact List.mem_cons_self _ _
      obtain ⟨s, hsmem, hs1, _⟩ := ihBound b hmem
      have := hheadle s hsmem
      omega
    rw [cutSimple]
    split_ifs with h1 h2 h3 h4
    · exact ⟨hinv, fun s' hs' => ⟨s', hs', le_refl _, le_refl _⟩⟩
    · -- full-cover removal
      refine ⟨ihInv, fun s' hs' => ?_⟩
      obtain ⟨s, hsm, hb⟩ := ihBound s' hs'
      exact ⟨s, List.mem_cons_of_mem _ hsm, hb⟩
    · -- tail trim
      refine ⟨⟨?_, ?_⟩, ?_⟩
      · rw [List.chain'_cons']
        refine ⟨?_, ihInv.1⟩
        intro b hb
        rw [Option.mem_def] at hb
        have hb2 := hLB b hb
        have hs2 := hle seg (List.mem_cons_self _ _)
        show start ≤ b.start
        omega
      · intro s hs
        rw [List.mem_cons] at hs
        rcases hs with rfl | hs
        · show seg.start < start
          omega
        · exact ihInv.2 s hs
      · intro s' hs'
        rw [List.mem_cons] at hs'
        rcases hs' with rfl | hs'
        · refine ⟨seg, List.mem_cons_self _ _, ?_, ?_⟩
          · show seg.start ≤ seg.start
            exact le_refl _
          · show start ≤ seg.stop
            exact hle seg (List.mem_cons_self _ _)
        · obtain ⟨s, hsm, hb1, hb2⟩ := ihBound s' hs'
          exact ⟨s, List.mem_cons_of_mem _ hsm, hb1, hb2⟩
    · -- head trim
      refine ⟨⟨?_, ?_⟩, ?_⟩
      · rw [List.chain'_cons']
        refine ⟨?_, ihInv.1⟩
        intro b hb
        rw [Option.mem_def] at hb
        have hb2 := hLB b hb
        show seg.stop ≤ b.start
        omega
      · intro s hs
        rw [List.mem_cons] at hs
        rcases hs with rfl | hs
        · show stop < seg.stop
          omega
        · exact ihInv.2 s hs
      · intro s' hs'
        rw [List.mem_cons] at hs'
        rcases hs' with rfl | hs'
        · refine ⟨seg, List.mem_cons_self _ _, ?_, ?_⟩
          · show seg.start ≤ stop
            omega
          · show seg.stop ≤ seg.stop
            exact le_refl _
        · obtain ⟨s, hsm, hb1, hb2⟩ := ihBound s' hs'
          exact ⟨s, List.mem_cons_of_mem _ hsm, hb1, hb2⟩
    · -- internal split
      have hsplit : seg.start < start ∧ stop < seg.stop := by omega
      refine ⟨⟨?_, ?_⟩, ?_⟩
      · rw [List.chain'_cons]
        constructor
        · show start ≤ stop
          omega
        · rw [List.chain'_cons']
          refine ⟨?_, ihInv.1⟩
          intro b hb
          rw [Option.mem_def] at hb
          have hb2 := hLB b hb
          show seg.stop ≤ b.start
          omega
      · intro s hs
        rw [List.mem_cons] at hs
        rcases hs with rfl | hs
        · show seg.start < start
          omega
        · rw [List.mem_cons] at hs
          rcases hs with rfl | hs
          · show stop < seg.stop
            omega
          · exact ihInv.2 s hs
      · intro s' hs'
        rw [List.mem_cons] at hs'
        rcases hs' with rfl | hs'
        · refine ⟨seg, List.mem_cons_self _ _, ?_, ?_⟩
          · show seg.start ≤ seg.start
            exact le_refl _
          · show start ≤ seg.stop
            omega
        · rw [List.mem_cons] at hs'
          rcases hs' with rfl | hs'
          · refine ⟨seg, List.mem_cons_self _ _, ?_, ?_⟩
            · show seg.start ≤ stop
              omega
            · show seg.stop ≤ seg.stop
              exact le_refl _
          · obtain ⟨s, hsm, hb1, hb2⟩ := ihBound s' hs'
            exact ⟨s, List.mem_cons_of_mem _ hsm, hb1, hb2⟩

/-- Setting the last stop keeps the head's start unchanged. -/
theorem setLastStop_head_start (r : TrackSegment) (t : List TrackSegment)
    (x : Nat) :
    ∃ r' t', setLastStop (r :: t) x = r' :: t' ∧ r'.start = r.start := by
  cases t with
  | nil => exact ⟨{ r with stop := x }, [], rfl, rfl⟩
  | cons c t' => exact ⟨r, setLastStop (c :: t') x, rfl, rfl⟩

/-- Track::stop preserves the segment invariant when the new stop lies past
    the final segment's start. -/
theorem setLastStop_inv (l : List TrackSegment) :
    ∀ x : Nat, SegInv l → (∀ s, l.getLast? = some s → s.start < x) →
      SegInv (setLastStop l x) := by
  induction l with
  | nil =>
    intro x _ _
    exact ⟨List.chain'_nil, by simp [setLastStop]⟩
  | cons a t ih =>
    intro x hinv hlast
    cases t with
    | nil =>
      have ha := hlast a (by simp)
      constructor
      · simp [setLastStop]
      · intro s hs
        simp [setLastStop] at hs
        rw [hs]
        show a.start < x
        omega
    | cons b t' =>
      have hinvt : SegInv (b :: t') := segInv_tail hinv
      have hlast' : ∀ s, (b :: t').getLast? = some s → s.start < x := by
        intro s hs
        apply hlast
        rw [List.getLast?_cons_cons]
        exact hs
      have hrec := ih x hinvt hlast'
      obtain ⟨r', t'', heq, hstart⟩ := setLastStop_head_start b t' x
      have hchain : a.stop ≤ b.start := by
        have := hinv.1
        rw [List.chain'_cons] at this
        exact this.1
      constructor
      · show List.Chain' _ (a :: setLastStop (b :: t') x)
        rw [List.chain'_cons']
        constructor
        · intro y hy
          rw [Option.mem_def, heq] at hy
          obtain rfl := Option.some.inj hy
          rw [hstart]
          exact hchain
        · exact hrec.1
      · intro s hs
        rw [show setLastStop (a :: b :: t') x = a :: setLastStop (b :: t') x from rfl,
            List.mem_cons] at hs
        rcases hs with rfl | hs
        · exact hinv.2 s (List.mem_cons_self _ _)
        · exact hrec.2 s hs

/-- Every track built by the to_track_period fold carries exactly one
    segment spanning 0..stop. -/
theorem ttpFold_segments (l : Layer) (stop : Nat) (es : List TrackEntry) :
    ∀ acc : Int × TrackPeriod,
      (∀ t ∈ acc.2.rails ++ acc.2.signals, ∃ net, t.segments = [⟨net, 0, stop⟩]) →
      ∀ t ∈ (es.foldl (ttpStep l stop) acc).2.rails ++
            (es.foldl (ttpStep l stop) acc).2.signals,
        ∃ net, t.segments = [⟨net, 0, stop⟩] := by
  induction es with
  | nil => intro acc h; exact h
  | cons e rest ih =>
    intro acc h
    rw [List.foldl_cons]
    apply ih
    obtain ⟨cursor, period⟩ := acc
    obtain ⟨w, tt⟩ := e
    intro t ht
    cases tt with
    | Gap => exact h t ht
    | Rail =>
      simp only [ttpStep, List.mem_append] at ht h
      rcases ht with (ht | ht) | ht
      · exact h t (Or.inl ht)
      · rw [List.mem_singleton] at ht
        subst ht
        exact ⟨some "POWER_OR_GROUND_HERE_BRO", rfl⟩
      · exact h t (Or.inr ht)
    | Signal =>
      simp only [ttpStep, List.mem_append] at ht h
      rcases ht with ht | (ht | ht)
      · exact h t (Or.inl ht)
      · exact h t (Or.inr ht)
      · rw [List.mem_singleton] at ht
        subst ht
        exact ⟨none, rfl⟩

/-- Every track of a freshly derived period has the single segment 0..stop. -/
theorem to_track_period_single_segment (l : Layer) (stop : Nat) :
    ∀ t ∈ (l.to_track_period stop).rails ++ (l.to_track_period stop).signals,
      ∃ net, t.segments = [⟨net, 0, stop⟩] := by
  intro t ht
  exact ttpFold_segments l stop l.flat_entries (l.offset, ⟨[], []⟩) (by simp) t ht

/-- Claim C10: the internal-error branch of Track::cut is unreachable; a cut
    with stop greater than start on a non-empty track always succeeds and in
    particular never returns the internal error. -/
theorem cut_no_internal_error (segments : List TrackSegment) (start stop : Nat)
    (hne : segments ≠ []) (hss : start < stop) :
    (∃ res, cutSegs segments start stop = .ok res) ∧
    cutSegs segments start stop ≠
      .error (.Message "Internal Error: Track::cut") := by
  have hguard : ¬(segments.length = 0 ∨ stop ≤ start) := by
    rintro (h | h)
    · exact hne (List.length_eq_zero.mp h)
    · omega
  obtain ⟨out, hout⟩ := cutScan_isOk start stop segments
  have hok : cutSegs segments start stop = .ok (cutAssemble out) := by
    rw [cutSegs, if_neg hguard, hout]
  refine ⟨⟨_, hok⟩, ?_⟩
  rw [hok]
  intro hcontra
  exact Except.noConfusion hcontra

/-- Claim C10 witness: a concrete interior cut on a one-segment track. -/
theorem cut_no_internal_error_witness :
    (∃ res, cutSegs [⟨none, 0, 3⟩] 1 2 = .ok res) ∧
    cutSegs [⟨none, 0, 3⟩] 1 2 ≠
      .error (.Message "Internal Error: Track::cut") :=
  cut_no_internal_error [⟨none, 0, 3⟩] 1 2 (by simp) (by omega)

/-- Claim C1: Track::cut handles an overlapping segment by overlap shape: a
    fully covered segment is deleted, a tail overlap lowers stop to the cut
    start, a head overlap raises start to the cut stop, and a segment
    strictly containing the cut is split in two; concretely, cut(50,170) on
    segments (0,100),(150,200) yields (0,50),(170,200), and cut(120,160) on
    the single segment (100,200) yields (100,120),(160,200). -/
theorem track_cut_cases :
    (∀ (seg : TrackSegment) (start stop : Nat),
      seg.start < seg.stop → start < stop →
      ((start ≤ seg.start ∧ seg.stop ≤ stop →
          cutSegs [seg] start stop = .ok []) ∧
       (seg.start < start ∧ seg.stop ≤ stop ∧ start < seg.stop →
          cutSegs [seg] start stop = .ok [{ seg with stop := start }]) ∧
       (start ≤ seg.start ∧ stop < seg.stop ∧ seg.start < stop →
          cutSegs [seg] start stop = .ok [{ seg with start := stop }]) ∧
       (seg.start < start ∧ stop < seg.stop →
          cutSegs [seg] start stop =
            .ok [{ seg with stop := start }, { seg with start := stop }]))) ∧
    cutSegs [⟨none, 0, 100⟩, ⟨none, 150, 200⟩] 50 170 =
      .ok [⟨none, 0, 50⟩, ⟨none, 170, 200⟩] ∧
    cutSegs [⟨none, 100, 200⟩] 120 160 =
      .ok [⟨none, 100, 120⟩, ⟨none, 160, 200⟩] := by
  refine ⟨?_, by decide, by decide⟩
  intro seg start stop hseg hss
  have hinv : SegInv [seg] := ⟨List.chain'_singleton _, by simpa using hseg⟩
  have hbase := cutSegs_eq_cutSimple [seg] start stop hinv (by simp) hss
  refine ⟨?_, ?_, ?_, ?_⟩ <;> intro hc <;> rw [hbase] <;> congr 1 <;>
    rw [cutSimple] <;> split_ifs <;> first | rfl | omega

/-- Claim C1 witness: the general case statements applied at concrete
    segments, one instance per overlap shape. -/
theorem track_cut_cases_witness :
    cutSegs [⟨none, 10, 20⟩] 5 30 = .ok [] ∧
    cutSegs [⟨none, 10, 20⟩] 15 30 = .ok [⟨none, 10, 15⟩] ∧
    cutSegs [⟨none, 10, 20⟩] 5 15 = .ok [⟨none, 15, 20⟩] ∧
    cutSegs [⟨none, 10, 20⟩] 12 14 = .ok [⟨none, 10, 12⟩, ⟨none, 14, 20⟩] :=
  ⟨(track_cut_cases.1 ⟨none, 10, 20⟩ 5 30 (by decide) (by decide)).1 (by decide),
   (track_cut_cases.1 ⟨none, 10, 20⟩ 15 30 (by decide) (by decide)).2.1 (by decide),
   (track_cut_cases.1 ⟨none, 10, 20⟩ 5 15 (by decide) (by decide)).2.2.1 (by decide),
   (track_cut_cases.1 ⟨none, 10, 20⟩ 12 14 (by decide) (by decide)).2.2.2 (by decide)⟩

/-- Claim C9 counterexample: the invariant is not preserved by every
    successful mutation: stop(0) on the invariant-satisfying track (0,100)
    succeeds but yields (0,0), violating stop greater than start; and
    cut(50,100) on the invariant-satisfying segments (0,10),(20,30) succeeds
    but yields the overlapping, unsorted pair (0,50),(20,50). -/
theorem segment_invariant_counterexample :
    SegInv [⟨none, 0, 100⟩] ∧
    stopSegs [⟨none, 0, 100⟩] 0 = .ok [⟨none, 0, 0⟩] ∧
    ¬ SegInv [⟨none, 0, 0⟩] ∧
    SegInv [⟨none, 0, 10⟩, ⟨none, 20, 30⟩] ∧
    cutSegs [⟨none, 0, 10⟩, ⟨none, 20, 30⟩] 50 100 =
      .ok [⟨none, 0, 50⟩, ⟨none, 20, 50⟩] ∧
    ¬ SegInv [⟨none, 0, 50⟩, ⟨none, 20, 50⟩] := by
  refine ⟨(segInv_iff _).mpr (by decide), by decide, ?_, (segInv_iff _).mpr (by decide),
          by decide, ?_⟩
  · rw [segInv_iff]
    decide
  · rw [segInv_iff]
    decide

/-- Claim C9 (amended): the track-segment invariant holds for the segments
    produced by Layer::to_track_period whenever the requested stop is
    positive; it is preserved by a successful Track::cut provided no segment
    lies strictly left of the cut (every segment stops at or after the cut
    start); and it is preserved by a successful Track::stop provided the new
    stop exceeds the final segment's start. -/
theorem segment_invariant_amended :
    (∀ (l : Layer) (stop : Nat), 0 < stop →
      ∀ t ∈ (l.to_track_period stop).rails ++ (l.to_track_period stop).signals,
        SegInv t.segments) ∧
    (∀ (segs : List TrackSegment) (start stop : Nat)
        (segs' : List TrackSegment),
      SegInv segs → (∀ s ∈ segs, start ≤ s.stop) →
      cutSegs segs start stop = .ok segs' → SegInv segs') ∧
    (∀ (segs : List TrackSegment) (x : Nat) (segs' : List TrackSegment),
      SegInv segs → (∀ s, segs.getLast? = some s → s.start < x) →
      stopSegs segs x = .ok segs' → SegInv segs') := by
  refine ⟨?_, ?_, ?_⟩
  · intro l stop hstop t ht
    obtain ⟨net, hseg⟩ := to_track_period_single_segment l stop t ht
    rw [hseg]
    constructor
    · simp
    · intro s hs
      rw [List.mem_singleton] at hs
      subst hs
      exact hstop
  · intro segs start stop segs' hinv hle hok
    have hg : ¬(segs.length = 0 ∨ stop ≤ start) := by
      intro hg
      rw [cutSegs, if_pos hg] at hok
      exact Except.noConfusion hok
    have hlen : segs.length ≠ 0 := by omega
    have hne : segs ≠ [] := by
      intro h
      exact hlen (by rw [h]; rfl)
    have hss : start < stop := by omega
    rw [cutSegs_eq_cutSimple segs start stop hinv hne hss] at hok
    obtain rfl := Except.ok.inj hok
    exact (cutSimple_bound_inv start stop hss segs hinv hle).1
  · intro segs x segs' hinv hlast hok
    rw [stopSegs] at hok
    split_ifs at hok with hg
    obtain rfl := Except.ok.inj hok
    exact setLastStop_inv segs x hinv hlast

/-- Claim C9 witness: the amended statement applied at concrete inputs for
    each of the three operations. -/
theorem segment_invariant_amended_witness :
    (∀ t ∈ ((miniLayer 0).to_track_period 4).rails ++
            ((miniLayer 0).to_track_period 4).signals, SegInv t.segments) ∧
    SegInv [⟨none, 2, 5⟩] ∧
    SegInv [⟨none, 0, 9⟩] := by
  refine ⟨segment_invariant_amended.1 (miniLayer 0) 4 (by omega), ?_, ?_⟩
  · refine segment_invariant_amended.2.1 [⟨none, 2, 10⟩] 5 10 [⟨none, 2, 5⟩]
      ((segInv_iff _).mpr (by decide)) (by decide) (by decide)
  · refine segment_invariant_amended.2.2 [⟨none, 0, 3⟩] 9 [⟨none, 0, 9⟩]
      ((segInv_iff _).mpr (by decide)) ?_ (by decide)
    intro s hs
    obtain rfl : (⟨none, 0, 3⟩ : TrackSegment) = s := by simpa using hs
    decide

end Layout21
